import Mathlib

/-!
Verification development for the gwent-deck-builder statistics engine
(file src/genetic/fitness.py of the repository).

Python dictionaries are embedded as association lists with unique keys
maintained by the update-or-append assignment dSet; corpus deck JSON files
(directory data/decks, shape Leader / Stratagem / Cards with id and count
fields) are embedded as a list of DeckData records handed to the builders
in directory-listing order.
-/

set_option autoImplicit false

universe u v w

/-- Association-list embedding of a Python dict: lookup returns the value of
the first entry with the given key. -/
def dFind {α : Type u} {β : Type v} [DecidableEq α] : List (α × β) → α → Option β
  | [], _ => none
  | (k, v) :: rest, a => if k = a then some v else dFind rest a

/-- Embedding of Python dict.get with an explicit default value. -/
def dGet {α : Type u} {β : Type v} [DecidableEq α] (d : List (α × β)) (a : α) (dflt : β) : β :=
  (dFind d a).getD dflt

/-- Embedding of Python dict assignment: replace the value of an existing key,
otherwise append the new entry at the end (insertion order). -/
def dSet {α : Type u} {β : Type v} [DecidableEq α] : List (α × β) → α → β → List (α × β)
  | [], a, b => [(a, b)]
  | (k, v) :: rest, a, b => if k = a then (k, b) :: rest else (k, v) :: dSet rest a b

/-- The key list of an embedded dict. -/
def dKeys {α : Type u} {β : Type v} (d : List (α × β)) : List α := d.map Prod.fst

theorem dFind_dSet {α : Type u} {β : Type v} [DecidableEq α]
    (d : List (α × β)) (a : α) (v : β) (c : α) :
    dFind (dSet d a v) c = if a = c then some v else dFind d c := by
  induction d with
  | nil => simp [dSet, dFind]
  | cons hd tl ih =>
    obtain ⟨k, w⟩ := hd
    by_cases hka : k = a
    · subst hka
      by_cases hkc : k = c <;> simp [dSet, dFind, hkc]
    · by_cases hkc : k = c
      · subst hkc
        have hac : ¬ a = k := fun h => hka h.symm
        simp [dSet, dFind, hka, hac]
      · simp [dSet, dFind, hka, hkc, ih]

theorem dFind_dSet_self {α : Type u} {β : Type v} [DecidableEq α]
    (d : List (α × β)) (a : α) (v : β) :
    dFind (dSet d a v) a = some v := by
  simp [dFind_dSet]

theorem dFind_dSet_ne {α : Type u} {β : Type v} [DecidableEq α]
    (d : List (α × β)) (a : α) (v : β) (c : α) (h : a ≠ c) :
    dFind (dSet d a v) c = dFind d c := by
  simp [dFind_dSet, h]

theorem dFind_eq_none_iff {α : Type u} {β : Type v} [DecidableEq α]
    (d : List (α × β)) (c : α) :
    dFind d c = none ↔ c ∉ dKeys d := by
  induction d with
  | nil => simp [dFind, dKeys]
  | cons hd tl ih =>
    obtain ⟨k, w⟩ := hd
    by_cases hkc : k = c
    · subst hkc
      simp [dFind, dKeys]
    · simp [dFind, dKeys, hkc, ih]
      intro h
      exact fun hh => hkc hh.symm

theorem dKeys_dSet {α : Type u} {β : Type v} [DecidableEq α]
    (d : List (α × β)) (a : α) (v : β) :
    dKeys (dSet d a v) = if a ∈ dKeys d then dKeys d else dKeys d ++ [a] := by
  induction d with
  | nil => simp [dSet, dKeys]
  | cons hd tl ih =>
    obtain ⟨k, w⟩ := hd
    by_cases hka : k = a
    · subst hka
      simp [dSet, dKeys]
    · have hak : ¬ a = k := fun h => hka h.symm
      simp only [dSet, if_neg hka]
      show k :: dKeys (dSet tl a v) = _
      rw [ih]
      by_cases hmem : a ∈ dKeys tl
      · have h2 : a ∈ dKeys ((k, w) :: tl) := by
          simp only [dKeys, List.map_cons, List.mem_cons]
          exact Or.inr hmem
        rw [if_pos hmem, if_pos h2]
        rfl
      · have h3 : a ∉ dKeys ((k, w) :: tl) := by
          simp only [dKeys, List.map_cons, List.mem_cons]
          rintro (h | h)
          exacts [hak h, hmem h]
        rw [if_neg hmem, if_neg h3]
        rfl

theorem dKeys_dSet_nodup {α : Type u} {β : Type v} [DecidableEq α]
    (d : List (α × β)) (a : α) (v : β) (h : (dKeys d).Nodup) :
    (dKeys (dSet d a v)).Nodup := by
  rw [dKeys_dSet]
  by_cases hmem : a ∈ dKeys d
  · simpa [hmem] using h
  · simp only [hmem, if_false]
    simpa [List.nodup_append] using ⟨h, hmem⟩

theorem dFind_of_mem_nodup {α : Type u} {β : Type v} [DecidableEq α]
    (d : List (α × β)) (x : α) (n : β) (hmem : (x, n) ∈ d) (hnd : (dKeys d).Nodup) :
    dFind d x = some n := by
  induction d with
  | nil => simp at hmem
  | cons hd tl ih =>
    obtain ⟨k, w⟩ := hd
    rcases List.mem_cons.mp hmem with heq | htl
    · obtain ⟨h1, h2⟩ := Prod.mk.injEq .. ▸ heq
      cases heq
      simp [dFind]
    · have hk : k ≠ x := by
        intro hkx
        subst hkx
        have : k ∈ dKeys tl := List.mem_map.mpr ⟨(k, n), htl, rfl⟩
        simp [dKeys] at hnd
        exact hnd.1 n htl
      simp [dFind, hk]
      exact ih htl (by simp [dKeys] at hnd ⊢; exact hnd.2)

/-- Lookup in a dict whose entries were produced by a key-preserving map. -/
theorem dFind_mapEntries {α : Type u} {β : Type v} {γ : Type w} [DecidableEq α]
    (d : List (α × β)) (g : α → β → γ) (a : α) :
    dFind (d.map (fun p => (p.1, g p.1 p.2))) a = (dFind d a).map (g a) := by
  induction d with
  | nil => simp [dFind]
  | cons hd tl ih =>
    obtain ⟨k, w⟩ := hd
    by_cases hka : k = a
    · subst hka
      simp [dFind]
    · simp [dFind, hka, ih]

/-- Embedding of the Python idiom d[a] = d.get(a, 0) + 1 on an int-valued dict. -/
def dIncr {α : Type u} [DecidableEq α] (d : List (α × Nat)) (a : α) : List (α × Nat) :=
  dSet d a (dGet d a 0 + 1)

theorem dGet_dIncr_self {α : Type u} [DecidableEq α] (d : List (α × Nat)) (a : α) :
    dGet (dIncr d a) a 0 = dGet d a 0 + 1 := by
  simp [dIncr, dGet, dFind_dSet_self]

theorem dGet_dIncr_ne {α : Type u} [DecidableEq α] (d : List (α × Nat)) (a c : α) (h : a ≠ c) :
    dGet (dIncr d a) c 0 = dGet d c 0 := by
  simp [dIncr, dGet, dFind_dSet_ne _ _ _ _ h]

theorem dSet_ne_nil {α : Type u} {β : Type v} [DecidableEq α]
    (d : List (α × β)) (a : α) (v : β) : dSet d a v ≠ [] := by
  cases d with
  | nil => simp [dSet]
  | cons hd tl =>
    obtain ⟨k, w⟩ := hd
    by_cases hka : k = a <;> simp [dSet, hka]

/-! ## Data model

A corpus deck JSON file (shape written by the scraper and read by every
builder in fitness.py): a Leader label, a Stratagem label (either may be
absent, the affinity builders default them to the string Unknown) and a
Cards list of entries carrying an id and an optional count field. -/

/-- One entry of the Cards list of a corpus deck JSON file. -/
structure CardEntry where
  id : Nat
  count : Option Int
deriving DecidableEq

/-- One corpus deck JSON file from the data/decks directory. -/
structure DeckData where
  leader : Option String
  stratagem : Option String
  cards : List CardEntry
deriving DecidableEq

/-- The id list of a corpus deck, as built by the co-occurrence builder
(card_ids = the id field of each entry of the Cards list, in order). -/
def deckIds (d : DeckData) : List Nat := d.cards.map CardEntry.id

/-- A card record (src/models/card.py). -/
structure Card where
  id : Nat
  name : String
  provision : Int
  group : String
  type : String
  faction : String
  secondary_faction : String
deriving DecidableEq

/-- A candidate deck handed to the fitness method (src/models/deck.py). -/
structure Deck where
  leader_ability : String
  stratagem : String
  cards : List Card
  faction : String
deriving DecidableEq

/-! ## Occurrence Aggregator

Embedding of Fitness.__calculate_card_ocurance: scan every deck file, and for
every entry of its Cards list increment the counter of that entry id by one
(the count field of the entry is never read). -/

/-- Embedding of the body of __calculate_card_ocurance on an explicit corpus. -/
def calculate_card_ocurance (corpus : List DeckData) : List (Nat × Nat) :=
  corpus.foldl (fun occ d => d.cards.foldl (fun o e => dIncr o e.id) occ) []

theorem foldl_dIncr_get (entries : List CardEntry) (occ : List (Nat × Nat)) (x : Nat) :
    dGet (entries.foldl (fun o e => dIncr o e.id) occ) x 0
      = dGet occ x 0 + (entries.filter (fun e => e.id = x)).length := by
  induction entries generalizing occ with
  | nil => simp
  | cons e rest ih =>
    by_cases hex : e.id = x
    · have h1 : dGet (dIncr occ e.id) x 0 = dGet occ x 0 + 1 := by
        rw [hex]
        exact dGet_dIncr_self occ x
      rw [List.foldl_cons, ih, h1, List.filter_cons]
      simp [hex]
      omega
    · have h1 : dGet (dIncr occ e.id) x 0 = dGet occ x 0 :=
        dGet_dIncr_ne occ e.id x hex
      rw [List.foldl_cons, ih, h1, List.filter_cons]
      simp [hex]

theorem calculate_card_ocurance_get (corpus : List DeckData) (x : Nat) :
    dGet (calculate_card_ocurance corpus) x 0
      = (corpus.map (fun d => (d.cards.filter (fun e => e.id = x)).length)).sum := by
  suffices h : ∀ occ, dGet (corpus.foldl (fun occ d => d.cards.foldl (fun o e => dIncr o e.id) occ) occ) x 0
      = dGet occ x 0 + (corpus.map (fun d => (d.cards.filter (fun e => e.id = x)).length)).sum by
    simpa [calculate_card_ocurance, dGet, dFind] using h []
  induction corpus with
  | nil => simp
  | cons d rest ih =>
    intro occ
    simp only [List.foldl_cons, ih, foldl_dIncr_get, List.map_cons, List.sum_cons]
    omega

/-! ## Python runtime errors reached by the constructor

valueErrorEmptyMax is the ValueError raised by the builtin max on an empty
sequence (the failure mode of the Normalizer on an empty occurrence dict);
typeErrorListDir is the TypeError raised by os.listdir when its argument is
not a path string (a dict or a Fitness instance); attributeErrorGet is the
AttributeError raised when the get method is requested from a non-dict. -/

inductive PyError where
  | valueErrorEmptyMax
  | typeErrorListDir
  | attributeErrorGet
deriving DecidableEq

/-- The value of the most frequent card: the count component of the result of
the Python expression max(card_occurrences.items(), key = value) used by
__normalize_card_occurances (only the count component of that maximum is ever
read). On the empty dict the builtin max raises instead; see
normalize_card_occurances_E. -/
def topVal (occ : List (Nat × Nat)) : Nat :=
  occ.foldl (fun m p => max m p.2) 0

/-- Embedding of the dict comprehension of __normalize_card_occurances:
every count c becomes log (1 + c) / log (1 + M) with M the maximum count. -/
noncomputable def normalize_card_occurances_core (occ : List (Nat × Nat)) : List (Nat × Real) :=
  occ.map (fun p => (p.1, Real.log (1 + (p.2 : Real)) / Real.log (1 + (topVal occ : Real))))

/-- Embedding of __normalize_card_occurances including its failure mode:
max raises ValueError on an empty dict, otherwise the comprehension runs. -/
noncomputable def normalize_card_occurances_E (occ : List (Nat × Nat)) :
    Except PyError (List (Nat × Real)) :=
  if occ = [] then Except.error PyError.valueErrorEmptyMax
  else Except.ok (normalize_card_occurances_core occ)

theorem le_foldl_max (occ : List (Nat × Nat)) (b : Nat) :
    b ≤ occ.foldl (fun m p => max m p.2) b := by
  induction occ generalizing b with
  | nil => simp
  | cons p rest ih => exact le_trans (le_max_left b p.2) (ih (max b p.2))

theorem le_topVal (occ : List (Nat × Nat)) (x n : Nat) (hmem : (x, n) ∈ occ) :
    n ≤ topVal occ := by
  suffices h : ∀ b, n ≤ occ.foldl (fun m p => max m p.2) b from h 0
  induction occ with
  | nil => simp at hmem
  | cons p rest ih =>
    intro b
    rcases List.mem_cons.mp hmem with heq | htl
    · have hn : n = p.2 := by rw [← heq]
      rw [hn]
      simp only [List.foldl_cons]
      exact le_trans (le_max_right b p.2) (le_foldl_max rest (max b p.2))
    · simp only [List.foldl_cons]
      exact ih htl (max b p.2)

theorem one_le_topVal (occ : List (Nat × Nat)) (hne : occ ≠ [])
    (hpos : ∀ p ∈ occ, 1 ≤ p.2) : 1 ≤ topVal occ := by
  cases occ with
  | nil => exact absurd rfl hne
  | cons p rest =>
    exact le_trans (hpos p (List.mem_cons_self p rest)) (le_topVal _ p.1 p.2 (List.mem_cons_self p rest))

theorem dKeys_normalize (occ : List (Nat × Nat)) :
    dKeys (normalize_card_occurances_core occ) = dKeys occ := by
  simp [normalize_card_occurances_core, dKeys]

theorem dFind_normalize (occ : List (Nat × Nat)) (x : Nat) :
    dFind (normalize_card_occurances_core occ) x
      = (dFind occ x).map
          (fun n : Nat => Real.log (1 + (n : Real)) / Real.log (1 + (topVal occ : Real))) := by
  exact dFind_mapEntries occ
    (fun _ n => Real.log (1 + (n : Real)) / Real.log (1 + (topVal occ : Real))) x

/-! ## Co-occurrence Matrix Builder, accumulation phase

Embedding of the first loop nest of __calculate_card_cooccurrence_matrix:
for every deck, for every pair of list positions i < j of its card_ids list,
the two mirrored cells (card_i, card_j) and (card_j, card_i) of a nested dict
are each created if absent and incremented by one. -/

/-- The nested integer dict card_cooccurrence. -/
abbrev Cooc := List (Nat × List (Nat × Nat))

/-- Nested dict lookup returning none when either level misses the key. -/
def lookup2 {γ : Type w} (m : List (Nat × List (Nat × γ))) (a b : Nat) : Option γ :=
  (dFind m a).bind (fun inner => dFind inner b)

/-- Nested dict get with a default for both missing levels. -/
def dGet2 {γ : Type w} (m : List (Nat × List (Nat × γ))) (a b : Nat) (z : γ) : γ :=
  dGet (dGet m a []) b z

theorem dGet2_eq_lookup2 {γ : Type w} (m : List (Nat × List (Nat × γ))) (a b : Nat) (z : γ) :
    dGet2 m a b z = (lookup2 m a b).getD z := by
  unfold dGet2 lookup2 dGet
  cases h : dFind m a <;> simp [h, dFind]

/-- Embedding of the three-statement increment of one directed cell of
card_cooccurrence (create the row if absent, create the cell if absent,
add one to the cell). -/
def dInc2 (m : Cooc) (a b : Nat) : Cooc :=
  dSet m a (dSet (dGet m a []) b (dGet (dGet m a []) b 0 + 1))

theorem lookup2_dInc2_self (m : Cooc) (a b : Nat) :
    lookup2 (dInc2 m a b) a b = some (dGet2 m a b 0 + 1) := by
  unfold lookup2 dInc2 dGet2
  rw [dFind_dSet_self]
  simp [dFind_dSet_self]

theorem lookup2_dInc2_other (m : Cooc) (a b c e : Nat) (h : ¬ (c = a ∧ e = b)) :
    lookup2 (dInc2 m a b) c e = lookup2 m c e := by
  by_cases hca : c = a
  · subst hca
    have hbe : b ≠ e := fun hh => h ⟨rfl, hh.symm⟩
    have hstep : ∀ (inner : List (Nat × Nat)) (v : Nat),
        (some (dSet inner b v)).bind (fun i2 => dFind i2 e) = dFind inner e := by
      intro inner v
      show dFind (dSet inner b v) e = dFind inner e
      exact dFind_dSet_ne _ _ _ _ hbe
    unfold lookup2 dInc2
    rw [dFind_dSet_self, hstep]
    cases hfind : dFind m c with
    | none => simp [dGet, hfind, dFind]
    | some inner => simp [dGet, hfind]
  · unfold lookup2 dInc2
    rw [dFind_dSet_ne _ _ _ _ (fun hh => hca hh.symm)]

/-- Embedding of the symmetric double increment performed for one pair of
list positions (the two mirrored increments of the source). -/
def bumpPair (m : Cooc) (a b : Nat) : Cooc :=
  dInc2 (dInc2 m a b) b a

theorem lookup2_bumpPair_fst (m : Cooc) (a b : Nat) (hab : a ≠ b) :
    lookup2 (bumpPair m a b) a b = some (dGet2 m a b 0 + 1) := by
  unfold bumpPair
  rw [lookup2_dInc2_other _ b a a b (fun hh => hab hh.1), lookup2_dInc2_self]

theorem lookup2_bumpPair_snd (m : Cooc) (a b : Nat) (hab : a ≠ b) :
    lookup2 (bumpPair m a b) b a = some (dGet2 m b a 0 + 1) := by
  unfold bumpPair
  rw [lookup2_dInc2_self]
  have h : dGet2 (dInc2 m a b) b a 0 = dGet2 m b a 0 := by
    rw [dGet2_eq_lookup2, dGet2_eq_lookup2,
      lookup2_dInc2_other _ a b b a (fun hh => hab hh.1.symm)]
  rw [h]

theorem lookup2_bumpPair_other (m : Cooc) (a b c e : Nat)
    (h1 : ¬ (c = a ∧ e = b)) (h2 : ¬ (c = b ∧ e = a)) :
    lookup2 (bumpPair m a b) c e = lookup2 m c e := by
  unfold bumpPair
  rw [lookup2_dInc2_other _ b a c e h2, lookup2_dInc2_other _ a b c e h1]

/-- Number of increments the position pair holding ids x (earlier) and y
(later) sends to the directed cell (a, b): one if (x, y) matches (a, b) and
one if it matches (b, a). -/
def pairTargets (a b x y : Nat) : Nat :=
  (if x = a ∧ y = b then 1 else 0) + (if x = b ∧ y = a then 1 else 0)

theorem dGet2_bumpPair (m : Cooc) (a b x y : Nat) (hab : a ≠ b) :
    dGet2 (bumpPair m x y) a b 0 = dGet2 m a b 0 + pairTargets a b x y := by
  by_cases h1 : x = a ∧ y = b
  · rw [h1.1, h1.2, dGet2_eq_lookup2, lookup2_bumpPair_fst m a b hab]
    simp [pairTargets, hab]
  · by_cases h2 : x = b ∧ y = a
    · rw [h2.1, h2.2, dGet2_eq_lookup2, lookup2_bumpPair_snd m b a (fun hh => hab hh.symm)]
      simp [pairTargets, hab, hab.symm]
    · have h1a : ¬ (a = x ∧ b = y) := fun hh => h1 ⟨hh.1.symm, hh.2.symm⟩
      have h2a : ¬ (a = y ∧ b = x) := fun hh => h2 ⟨hh.2.symm, hh.1.symm⟩
      rw [dGet2_eq_lookup2, lookup2_bumpPair_other m x y a b h1a h2a, ← dGet2_eq_lookup2]
      simp [pairTargets, h1, h2]

/-- The inner loop over j of the accumulation: the fixed earlier id x is
paired with every later id of ys in order. -/
def rowAccum (m : Cooc) (x : Nat) (ys : List Nat) : Cooc :=
  ys.foldl (fun acc y => bumpPair acc x y) m

/-- The outer loop over i of the accumulation. -/
def deckAccum (m : Cooc) : List Nat → Cooc
  | [] => m
  | x :: xs => deckAccum (rowAccum m x xs) xs

/-- The whole accumulation phase of __calculate_card_cooccurrence_matrix over
the corpus, before the division step. -/
def cooccAccum (corpus : List DeckData) : Cooc :=
  corpus.foldl (fun m d => deckAccum m (deckIds d)) []

/-- Number of position pairs i < j of the id list whose ordered id pair is
(a, b) or (b, a): the pairwise-position count of the unordered pair. -/
def pairPositions (a b : Nat) : List Nat → Nat
  | [] => 0
  | x :: xs => (xs.map (fun y => pairTargets a b x y)).sum + pairPositions a b xs

theorem dGet2_rowAccum (ys : List Nat) (m : Cooc) (a b x : Nat) (hab : a ≠ b) :
    dGet2 (rowAccum m x ys) a b 0
      = dGet2 m a b 0 + (ys.map (fun y => pairTargets a b x y)).sum := by
  induction ys generalizing m with
  | nil => simp [rowAccum]
  | cons y rest ih =>
    simp only [rowAccum, List.foldl_cons, List.map_cons, List.sum_cons]
    rw [show List.foldl (fun acc y => bumpPair acc x y) (bumpPair m x y) rest
        = rowAccum (bumpPair m x y) x rest from rfl, ih (bumpPair m x y),
      dGet2_bumpPair m a b x y hab]
    omega

theorem dGet2_deckAccum (ids : List Nat) (m : Cooc) (a b : Nat) (hab : a ≠ b) :
    dGet2 (deckAccum m ids) a b 0 = dGet2 m a b 0 + pairPositions a b ids := by
  induction ids generalizing m with
  | nil => simp [deckAccum, pairPositions]
  | cons x xs ih =>
    simp only [deckAccum, pairPositions]
    rw [ih (rowAccum m x xs), dGet2_rowAccum xs m a b x hab]
    omega

theorem dGet2_cooccAccum (corpus : List DeckData) (a b : Nat) (hab : a ≠ b) :
    dGet2 (cooccAccum corpus) a b 0
      = (corpus.map (fun d => pairPositions a b (deckIds d))).sum := by
  suffices h : ∀ m, dGet2 (corpus.foldl (fun m d => deckAccum m (deckIds d)) m) a b 0
      = dGet2 m a b 0 + (corpus.map (fun d => pairPositions a b (deckIds d))).sum by
    simpa [cooccAccum, dGet2, dGet, dFind] using h []
  induction corpus with
  | nil => simp
  | cons d rest ih =>
    intro m
    simp only [List.foldl_cons, List.map_cons, List.sum_cons]
    rw [ih (deckAccum m (deckIds d)), dGet2_deckAccum (deckIds d) m a b hab]
    omega

theorem lookup2_rowAccum_diag (ys : List Nat) (m : Cooc) (x a : Nat) (hx : ∀ y ∈ ys, x ≠ y) :
    lookup2 (rowAccum m x ys) a a = lookup2 m a a := by
  induction ys generalizing m with
  | nil => simp [rowAccum]
  | cons y rest ih =>
    have hxy : x ≠ y := hx y (List.mem_cons_self y rest)
    have hbump : lookup2 (bumpPair m x y) a a = lookup2 m a a := by
      refine lookup2_bumpPair_other m x y a a ?_ ?_
      · rintro ⟨hax, hay⟩
        exact hxy (hax.symm.trans hay)
      · rintro ⟨hay, hax⟩
        exact hxy (hax.symm.trans hay)
    simp only [rowAccum, List.foldl_cons]
    rw [show List.foldl (fun acc y => bumpPair acc x y) (bumpPair m x y) rest
        = rowAccum (bumpPair m x y) x rest from rfl,
      ih (bumpPair m x y) (fun y2 hy2 => hx y2 (List.mem_cons_of_mem y hy2)), hbump]

theorem lookup2_deckAccum_diag (ids : List Nat) (m : Cooc) (a : Nat) (hnd : ids.Nodup) :
    lookup2 (deckAccum m ids) a a = lookup2 m a a := by
  induction ids generalizing m with
  | nil => simp [deckAccum]
  | cons x xs ih =>
    have hx : ∀ y ∈ xs, x ≠ y := by
      intro y hy hxy
      rw [List.nodup_cons] at hnd
      exact hnd.1 (hxy ▸ hy)
    simp only [deckAccum]
    rw [ih (rowAccum m x xs) (List.nodup_cons.mp hnd).2, lookup2_rowAccum_diag xs m x a hx]

theorem lookup2_cooccAccum_diag (corpus : List DeckData) (a : Nat)
    (hnd : ∀ d ∈ corpus, (deckIds d).Nodup) :
    lookup2 (cooccAccum corpus) a a = none := by
  suffices h : ∀ m, lookup2 (corpus.foldl (fun m d => deckAccum m (deckIds d)) m) a a
      = lookup2 m a a by
    calc lookup2 (cooccAccum corpus) a a = lookup2 ([] : Cooc) a a := h []
    _ = none := rfl
  induction corpus with
  | nil => intro m; rfl
  | cons d rest ih =>
    intro m
    simp only [List.foldl_cons]
    rw [ih (fun d2 hd2 => hnd d2 (List.mem_cons_of_mem d hd2)) (deckAccum m (deckIds d)),
      lookup2_deckAccum_diag (deckIds d) m a (hnd d (List.mem_cons_self d rest))]

/-- Symmetry of a nested pair dict: the two mirrored cells agree, including
their presence. -/
def SymCooc (m : Cooc) : Prop := ∀ a b : Nat, lookup2 m a b = lookup2 m b a

theorem symCooc_bumpPair (m : Cooc) (x y : Nat) (hm : SymCooc m) :
    SymCooc (bumpPair m x y) := by
  intro a b
  by_cases hab : a = b
  · rw [hab]
  · by_cases h1 : a = x ∧ b = y
    · rw [h1.1, h1.2]
      by_cases hxy : x = y
      · rw [hxy]
      · rw [lookup2_bumpPair_fst m x y hxy, lookup2_bumpPair_snd m x y hxy,
          dGet2_eq_lookup2, dGet2_eq_lookup2, hm x y]
    · by_cases h2 : a = y ∧ b = x
      · rw [h2.1, h2.2]
        by_cases hxy : x = y
        · rw [hxy]
        · rw [lookup2_bumpPair_fst m x y hxy, lookup2_bumpPair_snd m x y hxy,
            dGet2_eq_lookup2, dGet2_eq_lookup2, hm x y]
      · have h1a : ¬ (a = x ∧ b = y) := h1
        have h2a : ¬ (a = y ∧ b = x) := h2
        have h1b : ¬ (b = x ∧ a = y) := fun hh => h2 ⟨hh.2, hh.1⟩
        have h2b : ¬ (b = y ∧ a = x) := fun hh => h1 ⟨hh.2, hh.1⟩
        rw [lookup2_bumpPair_other m x y a b h1a h2a,
          lookup2_bumpPair_other m x y b a h1b h2b, hm a b]

theorem symCooc_rowAccum (ys : List Nat) (m : Cooc) (x : Nat) (hm : SymCooc m) :
    SymCooc (rowAccum m x ys) := by
  induction ys generalizing m with
  | nil => exact hm
  | cons y rest ih =>
    simp only [rowAccum, List.foldl_cons]
    exact ih (bumpPair m x y) (symCooc_bumpPair m x y hm)

theorem symCooc_deckAccum (ids : List Nat) (m : Cooc) (hm : SymCooc m) :
    SymCooc (deckAccum m ids) := by
  induction ids generalizing m with
  | nil => exact hm
  | cons x xs ih => exact ih (rowAccum m x xs) (symCooc_rowAccum xs m x hm)

theorem symCooc_cooccAccum (corpus : List DeckData) : SymCooc (cooccAccum corpus) := by
  suffices h : ∀ m, SymCooc m → SymCooc (corpus.foldl (fun m d => deckAccum m (deckIds d)) m) from
    h [] (fun a b => rfl)
  induction corpus with
  | nil => exact fun m hm => hm
  | cons d rest ih =>
    intro m hm
    simp only [List.foldl_cons]
    exact ih (deckAccum m (deckIds d)) (symCooc_deckAccum (deckIds d) m hm)

/-! ## Co-occurrence Matrix Builder, division phase and final matrix

Embedding of the second loop nest of __calculate_card_cooccurrence_matrix:
every accumulated cell (i, j) is divided in place by
max(card_frequency.get(card_i, 1), card_frequency.get(card_j, 1)), and the
result is then laid out as a DataFrame whose missing cells are filled with 0
(matrixEntry reads a cell of that DataFrame). The numeric type of the
card_frequency dict and of the resulting matrix is a parameter K standing for
the Python floats of the source. -/

def divideStep {K : Type u} [LinearOrderedField K] (card_frequency : List (Nat × K))
    (acc : Cooc) : List (Nat × List (Nat × K)) :=
  acc.map (fun p =>
    (p.1, p.2.map (fun q =>
      (q.1, (q.2 : K) / max (dGet card_frequency p.1 1) (dGet card_frequency q.1 1)))))

/-- Embedding of the whole body of __calculate_card_cooccurrence_matrix on an
explicit corpus and an explicit card_frequency dict argument. -/
def calculate_card_cooccurrence_matrix_core {K : Type u} [LinearOrderedField K]
    (card_frequency : List (Nat × K)) (corpus : List DeckData) : List (Nat × List (Nat × K)) :=
  divideStep card_frequency (cooccAccum corpus)

/-- One cell of the final DataFrame: the stored value of the cell, or the
fillna value 0 when the pair was never stored. -/
def matrixEntry {K : Type u} [LinearOrderedField K] (m : List (Nat × List (Nat × K)))
    (a b : Nat) : K :=
  dGet2 m a b 0

theorem lookup2_divideStep {K : Type u} [LinearOrderedField K] (card_frequency : List (Nat × K))
    (acc : Cooc) (a b : Nat) :
    lookup2 (divideStep card_frequency acc) a b
      = (lookup2 acc a b).map
          (fun n : Nat => (n : K) / max (dGet card_frequency a 1) (dGet card_frequency b 1)) := by
  unfold lookup2 divideStep
  rw [dFind_mapEntries acc
    (fun k row => row.map (fun q =>
      (q.1, (q.2 : K) / max (dGet card_frequency k 1) (dGet card_frequency q.1 1)))) a]
  cases hfind : dFind acc a with
  | none => rfl
  | some inner =>
    show dFind (inner.map (fun q =>
      (q.1, (q.2 : K) / max (dGet card_frequency a 1) (dGet card_frequency q.1 1)))) b = _
    exact dFind_mapEntries inner
      (fun k n => (n : K) / max (dGet card_frequency a 1) (dGet card_frequency k 1)) b

theorem matrixEntry_core_symm {K : Type u} [LinearOrderedField K]
    (card_frequency : List (Nat × K)) (corpus : List DeckData) (a b : Nat) :
    matrixEntry (calculate_card_cooccurrence_matrix_core card_frequency corpus) a b
      = matrixEntry (calculate_card_cooccurrence_matrix_core card_frequency corpus) b a := by
  unfold matrixEntry calculate_card_cooccurrence_matrix_core
  rw [dGet2_eq_lookup2, dGet2_eq_lookup2, lookup2_divideStep, lookup2_divideStep,
    symCooc_cooccAccum corpus a b]
  simp only [max_comm (dGet card_frequency a 1) (dGet card_frequency b 1)]

/-! ## Affinity Tables Builders

Embedding of __calculate_card_leader_cooccurrence and
__calculate_card_stratagem_cooccurrence: tally count (defaulting to 1 when
the count field is absent) into raw_counts[card_id][label], then divide each
tally of a card by the sum of the tallies of that card, skipping cards whose
sum is zero. The label of a deck defaults to Unknown when absent. -/

/-- The deck label read by the leader affinity builder. -/
def leaderLabel (d : DeckData) : String := d.leader.getD "Unknown"

/-- The deck label read by the stratagem affinity builder. -/
def stratagemLabel (d : DeckData) : String := d.stratagem.getD "Unknown"

/-- The inner tally loop of an affinity builder over the Cards list of one
deck with a fixed label. -/
def tallyDeck (label : String) (raw : List (Nat × List (String × Int)))
    (cs : List CardEntry) : List (Nat × List (String × Int)) :=
  cs.foldl (fun r e =>
    dSet r e.id
      (dSet (dGet r e.id []) label (dGet (dGet r e.id []) label 0 + e.count.getD 1))) raw

/-- The raw_counts nested dict of an affinity builder over a whole corpus. -/
def affinityRaw (label : DeckData → String) (corpus : List DeckData) :
    List (Nat × List (String × Int)) :=
  corpus.foldl (fun r d => tallyDeck (label d) r d.cards) []

/-- The Python expression sum(inner.values()). -/
def sumVals (d : List (String × Int)) : Int := (d.map Prod.snd).sum

/-- The normalization loop of an affinity builder: cards with a zero tally
sum are skipped, every other tally is divided by the tally sum of its card. -/
def affinityNormalize {K : Type u} [LinearOrderedField K]
    (raw : List (Nat × List (String × Int))) : List (Nat × List (String × K)) :=
  raw.filterMap (fun p =>
    if sumVals p.2 = 0 then none
    else some (p.1, p.2.map (fun q => (q.1, (q.2 : K) / ((sumVals p.2 : Int) : K)))))

/-- Embedding of the body of __calculate_card_leader_cooccurrence on an
explicit corpus. -/
def calculate_card_leader_cooccurrence (K : Type u) [LinearOrderedField K]
    (corpus : List DeckData) : List (Nat × List (String × K)) :=
  affinityNormalize (affinityRaw leaderLabel corpus)

/-- Embedding of the body of __calculate_card_stratagem_cooccurrence on an
explicit corpus. -/
def calculate_card_stratagem_cooccurrence (K : Type u) [LinearOrderedField K]
    (corpus : List DeckData) : List (Nat × List (String × K)) :=
  affinityNormalize (affinityRaw stratagemLabel corpus)

theorem dKeys_tallyDeck_nodup (label : String) (raw : List (Nat × List (String × Int)))
    (cs : List CardEntry) (h : (dKeys raw).Nodup) :
    (dKeys (tallyDeck label raw cs)).Nodup := by
  induction cs generalizing raw with
  | nil => exact h
  | cons e rest ih =>
    simp only [tallyDeck, List.foldl_cons]
    exact ih _ (dKeys_dSet_nodup _ _ _ h)

theorem dKeys_affinityRaw_nodup (label : DeckData → String) (corpus : List DeckData) :
    (dKeys (affinityRaw label corpus)).Nodup := by
  suffices h : ∀ raw, (dKeys raw).Nodup →
      (dKeys (corpus.foldl (fun r d => tallyDeck (label d) r d.cards) raw)).Nodup from
    h [] (by simp [dKeys])
  induction corpus with
  | nil => exact fun raw h => h
  | cons d rest ih =>
    intro raw h
    simp only [List.foldl_cons]
    exact ih _ (dKeys_tallyDeck_nodup (label d) raw d.cards h)

theorem affinityNormalize_cons {K : Type u} [LinearOrderedField K]
    (p : Nat × List (String × Int)) (rest : List (Nat × List (String × Int))) :
    affinityNormalize (K := K) (p :: rest)
      = if sumVals p.2 = 0 then affinityNormalize (K := K) rest
        else (p.1, p.2.map (fun q => (q.1, (q.2 : K) / ((sumVals p.2 : Int) : K))))
          :: affinityNormalize (K := K) rest := by
  by_cases hz : sumVals p.2 = 0 <;> simp [affinityNormalize, List.filterMap_cons, hz]

theorem dKeys_affinityNormalize_subset {K : Type u} [LinearOrderedField K]
    (raw : List (Nat × List (String × Int))) (c : Nat)
    (h : c ∈ dKeys (affinityNormalize (K := K) raw)) : c ∈ dKeys raw := by
  induction raw with
  | nil => simp [affinityNormalize, dKeys] at h
  | cons p rest ih =>
    rw [affinityNormalize_cons] at h
    by_cases hz : sumVals p.2 = 0
    · rw [if_pos hz] at h
      exact List.mem_cons_of_mem _ (ih h)
    · rw [if_neg hz] at h
      have h2 : c = p.1 ∨ c ∈ dKeys (affinityNormalize (K := K) rest) := by
        simpa [dKeys] using h
      rcases h2 with hc | hc
      · simp [dKeys, hc]
      · exact List.mem_cons_of_mem _ (ih hc)

theorem dFind_affinityNormalize {K : Type u} [LinearOrderedField K]
    (raw : List (Nat × List (String × Int))) (c : Nat) (hnd : (dKeys raw).Nodup) :
    dFind (affinityNormalize (K := K) raw) c
      = (dFind raw c).bind (fun inner =>
          if sumVals inner = 0 then none
          else some (inner.map (fun q => (q.1, (q.2 : K) / ((sumVals inner : Int) : K))))) := by
  induction raw with
  | nil => simp [affinityNormalize, dFind]
  | cons p rest ih =>
    have hnd1 : p.1 ∉ dKeys rest := by
      simp only [dKeys, List.map_cons, List.nodup_cons] at hnd
      exact hnd.1
    have hnd2 : (dKeys rest).Nodup := by
      simp only [dKeys, List.map_cons, List.nodup_cons] at hnd
      exact hnd.2
    rw [affinityNormalize_cons]
    by_cases hpc : p.1 = c
    · have hfind : dFind (p :: rest) c = some p.2 := by
        obtain ⟨k, v⟩ := p
        show (if k = c then some v else dFind rest c) = some v
        rw [if_pos hpc]
      by_cases hz : sumVals p.2 = 0
      · rw [if_pos hz]
        have hnone : dFind (affinityNormalize (K := K) rest) c = none := by
          rw [dFind_eq_none_iff]
          intro hc
          exact hnd1 (hpc ▸ dKeys_affinityNormalize_subset rest c hc)
        rw [hnone, hfind]
        simp [hz]
      · rw [if_neg hz]
        have hL : dFind
            ((p.1, p.2.map (fun q => (q.1, (q.2 : K) / ((sumVals p.2 : Int) : K))))
              :: affinityNormalize (K := K) rest) c
            = some (p.2.map (fun q => (q.1, (q.2 : K) / ((sumVals p.2 : Int) : K)))) := by
          show (if p.1 = c then _ else _) = _
          rw [if_pos hpc]
        rw [hL, hfind]
        simp [hz]
    · have hfind : dFind (p :: rest) c = dFind rest c := by
        obtain ⟨k, v⟩ := p
        show (if k = c then some v else dFind rest c) = dFind rest c
        rw [if_neg hpc]
      by_cases hz : sumVals p.2 = 0
      · rw [if_pos hz, hfind]
        exact ih hnd2
      · rw [if_neg hz]
        have hL : dFind
            ((p.1, p.2.map (fun q => (q.1, (q.2 : K) / ((sumVals p.2 : Int) : K))))
              :: affinityNormalize (K := K) rest) c
            = dFind (affinityNormalize (K := K) rest) c := by
          show (if p.1 = c then _ else _) = _
          rw [if_neg hpc]
        rw [hL, hfind]
        exact ih hnd2

theorem list_sum_map_div {K : Type u} [LinearOrderedField K] (l : List K) (c : K) :
    (l.map (fun x => x / c)).sum = l.sum / c := by
  induction l with
  | nil => simp
  | cons x rest ih => simp [ih, add_div]

theorem list_sum_int_cast {K : Type u} [LinearOrderedField K] (l : List Int) :
    ((l.sum : Int) : K) = (l.map (fun z : Int => (z : K))).sum := by
  induction l with
  | nil => simp
  | cons x rest ih => simp [ih]

/-- The normalized inner dict of a card sums to exactly one whenever the card
kept an entry in the normalized table, and that entry is the tally list of
the card divided entrywise by its tally sum. -/
theorem affinityNormalize_sum_one {K : Type u} [LinearOrderedField K]
    (raw : List (Nat × List (String × Int))) (c : Nat) (inner : List (String × K))
    (hnd : (dKeys raw).Nodup)
    (h : dFind (affinityNormalize (K := K) raw) c = some inner) :
    (inner.map Prod.snd).sum = 1
      ∧ ∃ rawInner, dFind raw c = some rawInner ∧ sumVals rawInner ≠ 0
        ∧ inner = rawInner.map (fun q => (q.1, (q.2 : K) / ((sumVals rawInner : Int) : K))) := by
  rw [dFind_affinityNormalize raw c hnd] at h
  cases hfind : dFind raw c with
  | none =>
    rw [hfind] at h
    simp at h
  | some rawInner =>
    rw [hfind] at h
    have h2 : (if sumVals rawInner = 0 then none
        else some (rawInner.map (fun q => (q.1, (q.2 : K) / ((sumVals rawInner : Int) : K)))))
        = some inner := h
    by_cases hz : sumVals rawInner = 0
    · rw [if_pos hz] at h2
      exact absurd h2 (by simp)
    · rw [if_neg hz] at h2
      have hinner : inner = rawInner.map
          (fun q => (q.1, (q.2 : K) / ((sumVals rawInner : Int) : K))) := by
        cases h2
        rfl
      refine ⟨?_, rawInner, rfl, hz, hinner⟩
      have hT : ((sumVals rawInner : Int) : K) ≠ 0 := by
        exact_mod_cast hz
      have hsum : (inner.map Prod.snd).sum
          = ((rawInner.map (fun q : String × Int => (q.2 : K))).map
              (fun x => x / ((sumVals rawInner : Int) : K))).sum := by
        rw [hinner, List.map_map, List.map_map]
        rfl
      have hcast : ((sumVals rawInner : Int) : K)
          = (rawInner.map (fun q : String × Int => (q.2 : K))).sum := by
        rw [show (sumVals rawInner : Int) = (rawInner.map Prod.snd).sum from rfl,
          list_sum_int_cast, List.map_map]
        rfl
      rw [hsum, list_sum_map_div, ← hcast]
      exact div_self hT

theorem affinityNormalize_omits_zero {K : Type u} [LinearOrderedField K]
    (raw : List (Nat × List (String × Int))) (c : Nat) (rawInner : List (String × Int))
    (hnd : (dKeys raw).Nodup) (hfind : dFind raw c = some rawInner)
    (hz : sumVals rawInner = 0) :
    c ∉ dKeys (affinityNormalize (K := K) raw) := by
  have h2 : dFind (affinityNormalize (K := K) raw) c = none := by
    rw [dFind_affinityNormalize raw c hnd, hfind]
    have h3 : (if sumVals rawInner = 0 then none
        else some (rawInner.map (fun q => (q.1, (q.2 : K) / ((sumVals rawInner : Int) : K)))))
        = none := if_pos hz
    exact h3
  exact (dFind_eq_none_iff _ c).mp h2

/-! ## Default count of one for entries without a count field

Both affinity builders read the count of an entry as card.get with default 1;
filling an absent count field with the literal 1 therefore changes nothing. -/

/-- Replace an absent count field by the default 1 the builders read. -/
def fillEntry (e : CardEntry) : CardEntry :=
  CardEntry.mk e.id (some (e.count.getD 1))

/-- Fill the absent count fields of every entry of a deck. -/
def fillDeck (d : DeckData) : DeckData :=
  DeckData.mk d.leader d.stratagem (d.cards.map fillEntry)

theorem tallyDeck_fill (label : String) (raw : List (Nat × List (String × Int)))
    (cs : List CardEntry) :
    tallyDeck label raw (cs.map fillEntry) = tallyDeck label raw cs := by
  induction cs generalizing raw with
  | nil => rfl
  | cons e rest ih =>
    simp only [List.map_cons, tallyDeck, List.foldl_cons]
    have hid : (fillEntry e).id = e.id := rfl
    have hcount : (fillEntry e).count.getD 1 = e.count.getD 1 := rfl
    rw [hid, hcount]
    exact ih _

theorem affinityRaw_fill (label : DeckData → String)
    (hlabel : ∀ d, label (fillDeck d) = label d) (corpus : List DeckData) :
    affinityRaw label (corpus.map fillDeck) = affinityRaw label corpus := by
  suffices h : ∀ raw, (corpus.map fillDeck).foldl (fun r d => tallyDeck (label d) r d.cards) raw
      = corpus.foldl (fun r d => tallyDeck (label d) r d.cards) raw from h []
  induction corpus with
  | nil => intro raw; rfl
  | cons d rest ih =>
    intro raw
    simp only [List.map_cons, List.foldl_cons]
    rw [show (fillDeck d).cards = d.cards.map fillEntry from rfl, hlabel d,
      tallyDeck_fill (label d) raw d.cards]
    exact ih _

/-! ## Fitness Evaluator

Embedding of Fitness.fitness: a deck-local frequency dict, then for each
card entry its own frequency plus its leader and stratagem affinities, plus,
for every later entry, the matrix cell guarded by membership of the first id
in the DataFrame index and of the second id in the DataFrame columns. -/

/-- The five statistics attributes stored on a Fitness instance. -/
structure FitnessStats (K : Type u) where
  card_occurances : List (Nat × Nat)
  normalized_occurances : List (Nat × K)
  cooccurrence_matrix : List (Nat × List (Nat × K))
  card_leader_cooccurrence : List (Nat × List (String × K))
  card_stratagem_cooccurrence : List (Nat × List (String × K))

/-- The column labels of the DataFrame built from a nested dict: the union of
the inner key lists. -/
def matColumns {K : Type u} (m : List (Nat × List (Nat × K))) : List Nat :=
  (m.map (fun p => dKeys p.2)).flatten

/-- The deck-local card_frequency dict of the fitness method. -/
def candFreq (cards : List Card) : List (Nat × Nat) :=
  cards.foldl (fun d c => dIncr d c.id) []

/-- The expression card_leader_cooccurrence.get(card, default empty).get(l, 0). -/
def leaderScore {K : Type u} [LinearOrderedField K] (st : FitnessStats K)
    (c : Nat) (l : String) : K :=
  dGet (dGet st.card_leader_cooccurrence c []) l 0

/-- The expression card_stratagem_cooccurrence.get(card, default empty).get(s, 0). -/
def stratagemScore {K : Type u} [LinearOrderedField K] (st : FitnessStats K)
    (c : Nat) (s : String) : K :=
  dGet (dGet st.card_stratagem_cooccurrence c []) s 0

/-- The inner-loop summand of the fitness method: the matrix cell when the
first id is in the index and the second in the columns, otherwise nothing. -/
def pairScore {K : Type u} [LinearOrderedField K] (st : FitnessStats K) (a b : Nat) : K :=
  if a ∈ dKeys st.cooccurrence_matrix ∧ b ∈ matColumns st.cooccurrence_matrix
  then matrixEntry st.cooccurrence_matrix a b else 0

/-- The per-entry summand of the fitness method: own frequency count plus
leader affinity plus stratagem affinity. -/
def cardTerm {K : Type u} [LinearOrderedField K] (st : FitnessStats K)
    (freq : List (Nat × Nat)) (l s : String) (c : Nat) : K :=
  ((dGet freq c 0 : Nat) : K) + leaderScore st c l + stratagemScore st c s

/-- The double loop over pairs of positions i < j of the fitness method. -/
def pairPart {K : Type u} [LinearOrderedField K] (st : FitnessStats K) : List Nat → K
  | [] => 0
  | x :: xs => (xs.map (fun y => pairScore st x y)).sum + pairPart st xs

/-- Embedding of the body of Fitness.fitness. -/
def Fitness.fitness {K : Type u} [LinearOrderedField K] (st : FitnessStats K)
    (deck : Deck) : K :=
  ((deck.cards.map Card.id).map
    (cardTerm st (candFreq deck.cards) deck.leader_ability deck.stratagem)).sum
    + pairPart st (deck.cards.map Card.id)

theorem leaderScore_absent {K : Type u} [LinearOrderedField K] (st : FitnessStats K)
    (c : Nat) (l : String) (h : c ∉ dKeys st.card_leader_cooccurrence) :
    leaderScore st c l = 0 := by
  unfold leaderScore
  rw [show dGet st.card_leader_cooccurrence c [] = [] from by
    unfold dGet
    rw [(dFind_eq_none_iff _ c).mpr h]
    rfl]
  rfl

theorem stratagemScore_absent {K : Type u} [LinearOrderedField K] (st : FitnessStats K)
    (c : Nat) (s : String) (h : c ∉ dKeys st.card_stratagem_cooccurrence) :
    stratagemScore st c s = 0 := by
  unfold stratagemScore
  rw [show dGet st.card_stratagem_cooccurrence c [] = [] from by
    unfold dGet
    rw [(dFind_eq_none_iff _ c).mpr h]
    rfl]
  rfl

theorem leaderScore_label_absent {K : Type u} [LinearOrderedField K] (st : FitnessStats K)
    (c : Nat) (l : String) (h : l ∉ dKeys (dGet st.card_leader_cooccurrence c [])) :
    leaderScore st c l = 0 := by
  unfold leaderScore dGet
  rw [(dFind_eq_none_iff ((dFind st.card_leader_cooccurrence c).getD []) l).mpr h]
  rfl

theorem stratagemScore_label_absent {K : Type u} [LinearOrderedField K] (st : FitnessStats K)
    (c : Nat) (s : String) (h : s ∉ dKeys (dGet st.card_stratagem_cooccurrence c [])) :
    stratagemScore st c s = 0 := by
  unfold stratagemScore dGet
  rw [(dFind_eq_none_iff ((dFind st.card_stratagem_cooccurrence c).getD []) s).mpr h]
  rfl

theorem pairScore_left_absent {K : Type u} [LinearOrderedField K] (st : FitnessStats K)
    (a b : Nat) (h : a ∉ dKeys st.cooccurrence_matrix) : pairScore st a b = 0 := by
  unfold pairScore
  rw [if_neg (fun hh => h hh.1)]

theorem pairScore_right_absent {K : Type u} [LinearOrderedField K] (st : FitnessStats K)
    (a b : Nat) (h : b ∉ matColumns st.cooccurrence_matrix) : pairScore st a b = 0 := by
  unfold pairScore
  rw [if_neg (fun hh => h hh.2)]

/-! ## Fitness.__init__ and the missing self parameters

In the source, __calculate_card_cooccurrence_matrix, 
__calculate_card_leader_cooccurrence and __calculate_card_stratagem_cooccurrence
are defined without a self parameter. A bound-method call from __init__
therefore shifts every argument by one position: the instance itself lands in
the first declared parameter and the written argument (or nothing) lands in
deck_dir. The values that can reach os.listdir this way are a path string, the
normalized-occurrence dict, or the Fitness instance; PyVal enumerates them. -/

inductive PyVal where
  | pyStr : String → PyVal
  | pyDict : List (Nat × Real) → PyVal
  | pyInstance : PyVal

/-- Embedding of os.listdir combined with reading every deck JSON file of the
directory: a path string yields the corpus held by the file system, any other
argument raises TypeError. -/
def os_listdir (fsDecks : List DeckData) : PyVal → Except PyError (List DeckData)
  | PyVal.pyStr _ => Except.ok fsDecks
  | _ => Except.error PyError.typeErrorListDir

/-- Embedding of reading the get method of card_frequency: only an actual
dict has one, any other value raises AttributeError. -/
def pyAsDict : PyVal → Except PyError (List (Nat × Real))
  | PyVal.pyDict d => Except.ok d
  | _ => Except.error PyError.attributeErrorGet

/-- Embedding of one call of __calculate_card_cooccurrence_matrix with the
positional values actually bound at the call site: the directory listing of
deck_dir, the accumulation over the decks read, then the division using the
get method of card_frequency. -/
noncomputable def calculate_card_cooccurrence_matrix_call (fsDecks : List DeckData)
    (card_frequency deck_dir : PyVal) : Except PyError (List (Nat × List (Nat × Real))) :=
  (os_listdir fsDecks deck_dir).bind (fun decks =>
    (pyAsDict card_frequency).bind (fun freq =>
      Except.ok (divideStep freq (cooccAccum decks))))

/-- Embedding of one call of __calculate_card_leader_cooccurrence with the
positional value actually bound to deck_dir. -/
noncomputable def calculate_card_leader_cooccurrence_call (fsDecks : List DeckData)
    (deck_dir : PyVal) : Except PyError (List (Nat × List (String × Real))) :=
  (os_listdir fsDecks deck_dir).map (fun decks => calculate_card_leader_cooccurrence Real decks)

/-- Embedding of one call of __calculate_card_stratagem_cooccurrence with the
positional value actually bound to deck_dir. -/
noncomputable def calculate_card_stratagem_cooccurrence_call (fsDecks : List DeckData)
    (deck_dir : PyVal) : Except PyError (List (Nat × List (String × Real))) :=
  (os_listdir fsDecks deck_dir).map (fun decks => calculate_card_stratagem_cooccurrence Real decks)

/-- Embedding of Fitness.__init__ on an explicit corpus standing for the
data/decks directory. The first two statements call methods that do have a
self parameter, so they receive their written arguments; the remaining three
builder methods have no self parameter, so the instance is bound to their
first declared parameter and the written argument (the normalized dict, or
nothing, leaving deck_dir the instance) is shifted into deck_dir. -/
noncomputable def Fitness.init (corpus : List DeckData) :
    Except PyError (FitnessStats Real) :=
  (normalize_card_occurances_E (calculate_card_ocurance corpus)).bind (fun norm =>
    (calculate_card_cooccurrence_matrix_call corpus PyVal.pyInstance (PyVal.pyDict norm)).bind
      (fun matrix =>
        (calculate_card_leader_cooccurrence_call corpus PyVal.pyInstance).bind (fun leaderT =>
          (calculate_card_stratagem_cooccurrence_call corpus PyVal.pyInstance).map (fun stratT =>
            FitnessStats.mk (calculate_card_ocurance corpus) norm matrix leaderT stratT))))

theorem Fitness_init_eq (corpus : List DeckData) :
    Fitness.init corpus
      = if calculate_card_ocurance corpus = []
        then Except.error PyError.valueErrorEmptyMax
        else Except.error PyError.typeErrorListDir := by
  by_cases h : calculate_card_ocurance corpus = []
  · rw [if_pos h]
    unfold Fitness.init normalize_card_occurances_E
    rw [if_pos h]
    rfl
  · rw [if_neg h]
    unfold Fitness.init normalize_card_occurances_E
    rw [if_neg h]
    rfl

theorem foldl_dIncr_nil_iff (entries : List CardEntry) (occ : List (Nat × Nat)) :
    entries.foldl (fun o e => dIncr o e.id) occ = [] ↔ occ = [] ∧ entries = [] := by
  induction entries generalizing occ with
  | nil => simp
  | cons e rest ih =>
    simp only [List.foldl_cons, ih]
    constructor
    · rintro ⟨h1, _⟩
      exact absurd h1 (dSet_ne_nil _ _ _)
    · rintro ⟨_, h2⟩
      exact absurd h2 (List.cons_ne_nil e rest)

theorem calculate_card_ocurance_nil_iff (corpus : List DeckData) :
    calculate_card_ocurance corpus = [] ↔ ∀ d ∈ corpus, d.cards = [] := by
  suffices h : ∀ occ, corpus.foldl (fun occ d => d.cards.foldl (fun o e => dIncr o e.id) occ) occ = []
      ↔ occ = [] ∧ ∀ d ∈ corpus, d.cards = [] by
    rw [calculate_card_ocurance, h []]
    simp
  induction corpus with
  | nil => simp
  | cons d rest ih =>
    intro occ
    simp only [List.foldl_cons]
    rw [ih (d.cards.foldl (fun o e => dIncr o e.id) occ), foldl_dIncr_nil_iff]
    constructor
    · rintro ⟨⟨h1, h2⟩, h3⟩
      refine ⟨h1, ?_⟩
      intro d2 hd2
      rcases List.mem_cons.mp hd2 with heq | htl
      · rw [heq]; exact h2
      · exact h3 d2 htl
    · rintro ⟨h1, h2⟩
      exact ⟨⟨h1, h2 d (List.mem_cons_self d rest)⟩,
        fun d2 hd2 => h2 d2 (List.mem_cons_of_mem d hd2)⟩

theorem deckIds_map_count (f : Option Int → Option Int) (d : DeckData) :
    deckIds (DeckData.mk d.leader d.stratagem
      (d.cards.map (fun e => CardEntry.mk e.id (f e.count)))) = deckIds d := by
  simp only [deckIds, List.map_map]
  rfl

theorem cooccAccum_invariant_under_count_change (f : Option Int → Option Int)
    (corpus : List DeckData) :
    cooccAccum (corpus.map (fun d => DeckData.mk d.leader d.stratagem
      (d.cards.map (fun e => CardEntry.mk e.id (f e.count))))) = cooccAccum corpus := by
  unfold cooccAccum
  rw [List.foldl_map]
  congr 1
  funext m d
  rw [deckIds_map_count f d]

/-! ## Claims -/

/-- Modelled from the spec: the total number of physical copies of a card id
across all corpus decks, one per unit of the count field of each entry
(an absent count weighing one); this is the value claim C2 attributes to the
Occurrence Aggregator. -/
def specTotalCopies (corpus : List DeckData) (x : Nat) : Int :=
  (corpus.map (fun d =>
    ((d.cards.filter (fun e => e.id = x)).map (fun e => e.count.getD 1)).sum)).sum

/-- A corpus with card 1 at count 2 in one deck and count 1 in another: the
concrete corpus of the example inside claim C2. -/
def exCorpusC2 : List DeckData :=
  [DeckData.mk (some "L1") (some "S1") [CardEntry.mk 1 (some 2)],
   DeckData.mk (some "L1") (some "S2") [CardEntry.mk 1 (some 1)]]

/-- Claim C2 counterexample: on a corpus holding card 1 with count 2 in one
deck and count 1 in another, the Occurrence Aggregator of the source returns
2 — one per card entry, the count field never being read — while the claim
states the total number of physical copies, 3. -/
theorem C2_counterexample :
    dGet (calculate_card_ocurance exCorpusC2) 1 0 = 2
    ∧ specTotalCopies exCorpusC2 1 = 3
    ∧ ((dGet (calculate_card_ocurance exCorpusC2) 1 0 : Nat) : Int) ≠ specTotalCopies exCorpusC2 1 := by
  refine ⟨by decide, by decide, by decide⟩

/-- Claim C2 (amended): the raw count of a card id produced by
__calculate_card_ocurance equals the number of corpus deck card entries
carrying that id — one per entry per deck, with the count field ignored —
rather than the total number of physical copies. -/
theorem C2_amended_one_per_entry (corpus : List DeckData) (x : Nat) :
    dGet (calculate_card_ocurance corpus) x 0
      = (corpus.map (fun d => (d.cards.filter (fun e => e.id = x)).length)).sum :=
  calculate_card_ocurance_get corpus x

/-- Claim C5: during accumulation every unordered pair of distinct list
positions i < j of the card_ids list of a deck contributes exactly one
symmetric increment (so the accumulated cell of an unordered id pair is the
total pairwise-position count over the corpus); the count fields are never
read, so duplicate copies expressed through a count field change nothing; and
since copies are carried by the count field — each id occupying one list
position per deck — no diagonal (self-pair) cell is ever created. -/
theorem C5_pairwise_position_counting (corpus : List DeckData) :
    (∀ a b : Nat, a ≠ b →
      dGet2 (cooccAccum corpus) a b 0
        = (corpus.map (fun d => pairPositions a b (deckIds d))).sum)
    ∧ (∀ f : Option Int → Option Int,
        cooccAccum (corpus.map (fun d => DeckData.mk d.leader d.stratagem
          (d.cards.map (fun e => CardEntry.mk e.id (f e.count))))) = cooccAccum corpus)
    ∧ ((∀ d ∈ corpus, (deckIds d).Nodup) →
        ∀ a : Nat, lookup2 (cooccAccum corpus) a a = none) :=
  ⟨fun a b hab => dGet2_cooccAccum corpus a b hab,
   fun f => cooccAccum_invariant_under_count_change f corpus,
   fun hnd a => lookup2_cooccAccum_diag corpus a hnd⟩

/-- A two-deck corpus whose decks share the pair of cards 1 and 2. -/
def exCorpusC5 : List DeckData :=
  [DeckData.mk (some "L1") (some "S1") [CardEntry.mk 1 (some 2), CardEntry.mk 2 (some 1)],
   DeckData.mk (some "L1") (some "S2") [CardEntry.mk 1 (some 1), CardEntry.mk 2 (some 1)]]

theorem C5_witness :
    (1 : Nat) ≠ 2
    ∧ (∀ d ∈ exCorpusC5, (deckIds d).Nodup)
    ∧ dGet2 (cooccAccum exCorpusC5) 1 2 0
        = (exCorpusC5.map (fun d => pairPositions 1 2 (deckIds d))).sum
    ∧ lookup2 (cooccAccum exCorpusC5) 1 1 = none :=
  ⟨by decide, by decide,
   (C5_pairwise_position_counting exCorpusC5).1 1 2 (by decide),
   (C5_pairwise_position_counting exCorpusC5).2.2 (by decide) 1⟩

/-- Claim C7: the built co-occurrence matrix is symmetric — the cell of
(a, b) equals the cell of (b, a) — for every corpus, every frequency dict
handed to the builder, and every pair, observed or not. -/
theorem C7_matrix_symmetric {K : Type u} [LinearOrderedField K]
    (card_frequency : List (Nat × K)) (corpus : List DeckData) (a b : Nat) :
    matrixEntry (calculate_card_cooccurrence_matrix_core card_frequency corpus) a b
      = matrixEntry (calculate_card_cooccurrence_matrix_core card_frequency corpus) b a :=
  matrixEntry_core_symm card_frequency corpus a b

/-- Claim C3: for every corpus — empty or not — constructing a Fitness
instance raises before any co-occurrence or affinity statistics exist: on an
empty occurrence dict the Normalizer raises ValueError from max, and
otherwise the bound call of the self-less __calculate_card_cooccurrence_matrix
shifts the normalized dict into deck_dir, so os.listdir raises TypeError.
Construction never returns an instance. -/
theorem C3_construction_always_fails (corpus : List DeckData) :
    ∃ e : PyError, Fitness.init corpus = Except.error e := by
  rw [Fitness_init_eq corpus]
  by_cases h : calculate_card_ocurance corpus = []
  · exact ⟨PyError.valueErrorEmptyMax, by rw [if_pos h]⟩
  · exact ⟨PyError.typeErrorListDir, by rw [if_neg h]⟩

/-- Claim C8: construction fails with the empty-corpus error — the ValueError
the builtin max raises inside the Normalizer, the embedding of EmptyCorpus —
exactly when the corpus holds zero card occurrences, the failure escaping the
constructor so no statistics are produced. (With a non-empty corpus the
constructor still fails, but with the distinct TypeError of claim C3, never
with this error.) -/
theorem C8_empty_corpus_error_iff (corpus : List DeckData) :
    (normalize_card_occurances_E (calculate_card_ocurance corpus)
        = Except.error PyError.valueErrorEmptyMax
      ↔ ∀ d ∈ corpus, d.cards = [])
    ∧ (Fitness.init corpus = Except.error PyError.valueErrorEmptyMax
      ↔ ∀ d ∈ corpus, d.cards = []) := by
  constructor
  · unfold normalize_card_occurances_E
    by_cases h : calculate_card_ocurance corpus = []
    · rw [if_pos h]
      constructor
      · intro _
        exact (calculate_card_ocurance_nil_iff corpus).mp h
      · intro _
        rfl
    · rw [if_neg h]
      constructor
      · intro hh
        cases hh
      · intro hall
        exact absurd ((calculate_card_ocurance_nil_iff corpus).mpr hall) h
  · rw [Fitness_init_eq corpus]
    by_cases h : calculate_card_ocurance corpus = []
    · rw [if_pos h]
      constructor
      · intro _
        exact (calculate_card_ocurance_nil_iff corpus).mp h
      · intro _
        rfl
    · rw [if_neg h]
      constructor
      · intro hh
        cases hh
      · intro hall
        exact absurd ((calculate_card_ocurance_nil_iff corpus).mpr hall) h

/-- Claim C10: in both affinity builders an entry without a count field is
tallied as exactly one copy (card.get of count with default 1), so filling
every absent count with a literal 1 changes neither the raw tallies nor the
normalized affinity tables, and construction of the tallies never fails on a
missing count. -/
theorem C10_missing_count_defaults_to_one (K : Type u) [LinearOrderedField K]
    (corpus : List DeckData) :
    affinityRaw leaderLabel (corpus.map fillDeck) = affinityRaw leaderLabel corpus
    ∧ affinityRaw stratagemLabel (corpus.map fillDeck) = affinityRaw stratagemLabel corpus
    ∧ calculate_card_leader_cooccurrence K (corpus.map fillDeck)
        = calculate_card_leader_cooccurrence K corpus
    ∧ calculate_card_stratagem_cooccurrence K (corpus.map fillDeck)
        = calculate_card_stratagem_cooccurrence K corpus := by
  have h1 := affinityRaw_fill leaderLabel (fun d => rfl) corpus
  have h2 := affinityRaw_fill stratagemLabel (fun d => rfl) corpus
  refine ⟨h1, h2, ?_, ?_⟩
  · unfold calculate_card_leader_cooccurrence
    rw [h1]
  · unfold calculate_card_stratagem_cooccurrence
    rw [h2]

theorem dFind_isSome_of_mem_dKeys {α : Type u} {β : Type v} [DecidableEq α]
    (d : List (α × β)) (c : α) (h : c ∈ dKeys d) : ∃ i, dFind d c = some i := by
  cases hf : dFind d c with
  | none => exact absurd ((dFind_eq_none_iff d c).mp hf) (by simp [h])
  | some i => exact ⟨i, rfl⟩

/-- Claim C6: for every corpus, every card kept in the leader affinity table
(likewise the stratagem table) carries values summing to exactly one, each
value being the tally of that category divided by the total tally of the
card; and a card whose raw tally sum is zero is omitted entirely from either
table. Each part is an implication gated only by its own hypothesis, so the
distribution properties hold for every table member of every corpus, whether
or not any zero-tally card exists. -/
theorem C6_affinity_probability_distribution {K : Type u} [LinearOrderedField K]
    (corpus : List DeckData) (c c2 c0 : Nat) :
    (c ∈ dKeys (calculate_card_leader_cooccurrence K corpus) →
      ((dGet (calculate_card_leader_cooccurrence K corpus) c []).map Prod.snd).sum = 1
      ∧ ∃ rawL, dFind (affinityRaw leaderLabel corpus) c = some rawL ∧ sumVals rawL ≠ 0
          ∧ dGet (calculate_card_leader_cooccurrence K corpus) c []
              = rawL.map (fun q => (q.1, (q.2 : K) / ((sumVals rawL : Int) : K))))
    ∧ (c2 ∈ dKeys (calculate_card_stratagem_cooccurrence K corpus) →
      ((dGet (calculate_card_stratagem_cooccurrence K corpus) c2 []).map Prod.snd).sum = 1
      ∧ ∃ rawS, dFind (affinityRaw stratagemLabel corpus) c2 = some rawS ∧ sumVals rawS ≠ 0
          ∧ dGet (calculate_card_stratagem_cooccurrence K corpus) c2 []
              = rawS.map (fun q => (q.1, (q.2 : K) / ((sumVals rawS : Int) : K))))
    ∧ (c0 ∈ dKeys (affinityRaw leaderLabel corpus) →
        sumVals (dGet (affinityRaw leaderLabel corpus) c0 []) = 0 →
        c0 ∉ dKeys (calculate_card_leader_cooccurrence K corpus))
    ∧ (c0 ∈ dKeys (affinityRaw stratagemLabel corpus) →
        sumVals (dGet (affinityRaw stratagemLabel corpus) c0 []) = 0 →
        c0 ∉ dKeys (calculate_card_stratagem_cooccurrence K corpus)) := by
  have hndL := dKeys_affinityRaw_nodup leaderLabel corpus
  have hndS := dKeys_affinityRaw_nodup stratagemLabel corpus
  refine ⟨?_, ?_, ?_, ?_⟩
  · intro hL
    obtain ⟨innerL, hfL⟩ := dFind_isSome_of_mem_dKeys _ c hL
    have hgL : dGet (calculate_card_leader_cooccurrence K corpus) c [] = innerL := by
      unfold dGet
      rw [hfL]
      rfl
    have HL := affinityNormalize_sum_one (affinityRaw leaderLabel corpus) c innerL hndL hfL
    refine ⟨by rw [hgL]; exact HL.1, ?_⟩
    obtain ⟨rawL, h1, h2, h3⟩ := HL.2
    exact ⟨rawL, h1, h2, by rw [hgL]; exact h3⟩
  · intro hS
    obtain ⟨innerS, hfS⟩ := dFind_isSome_of_mem_dKeys _ c2 hS
    have hgS : dGet (calculate_card_stratagem_cooccurrence K corpus) c2 [] = innerS := by
      unfold dGet
      rw [hfS]
      rfl
    have HS := affinityNormalize_sum_one (affinityRaw stratagemLabel corpus) c2 innerS hndS hfS
    refine ⟨by rw [hgS]; exact HS.1, ?_⟩
    obtain ⟨rawS, h1, h2, h3⟩ := HS.2
    exact ⟨rawS, h1, h2, by rw [hgS]; exact h3⟩
  · intro h0 hz
    obtain ⟨raw0, hf0⟩ := dFind_isSome_of_mem_dKeys _ c0 h0
    have hz0 : sumVals raw0 = 0 := by
      have hg0 : dGet (affinityRaw leaderLabel corpus) c0 [] = raw0 := by
        unfold dGet
        rw [hf0]
        rfl
      rw [hg0] at hz
      exact hz
    exact affinityNormalize_omits_zero (affinityRaw leaderLabel corpus) c0 raw0 hndL hf0 hz0
  · intro h0 hz
    obtain ⟨raw0, hf0⟩ := dFind_isSome_of_mem_dKeys _ c0 h0
    have hz0 : sumVals raw0 = 0 := by
      have hg0 : dGet (affinityRaw stratagemLabel corpus) c0 [] = raw0 := by
        unfold dGet
        rw [hf0]
        rfl
      rw [hg0] at hz
      exact hz
    exact affinityNormalize_omits_zero (affinityRaw stratagemLabel corpus) c0 raw0 hndS hf0 hz0

/-- A corpus giving card 1 tallies under two leaders and two stratagems and
card 9 a tally of zero. -/
def exCorpusC6 : List DeckData :=
  [DeckData.mk (some "L1") (some "S1") [CardEntry.mk 1 (some 2), CardEntry.mk 9 (some 0)],
   DeckData.mk (some "L2") (some "S2") [CardEntry.mk 1 (some 1)]]

theorem C6_witness :
    (1 ∈ dKeys (calculate_card_leader_cooccurrence Rat exCorpusC6)
      ∧ 1 ∈ dKeys (calculate_card_stratagem_cooccurrence Rat exCorpusC6)
      ∧ 9 ∈ dKeys (affinityRaw leaderLabel exCorpusC6)
      ∧ sumVals (dGet (affinityRaw leaderLabel exCorpusC6) 9 []) = 0
      ∧ 9 ∈ dKeys (affinityRaw stratagemLabel exCorpusC6)
      ∧ sumVals (dGet (affinityRaw stratagemLabel exCorpusC6) 9 []) = 0)
    ∧ (((dGet (calculate_card_leader_cooccurrence Rat exCorpusC6) 1 []).map Prod.snd).sum = 1
      ∧ ∃ rawL, dFind (affinityRaw leaderLabel exCorpusC6) 1 = some rawL ∧ sumVals rawL ≠ 0
          ∧ dGet (calculate_card_leader_cooccurrence Rat exCorpusC6) 1 []
              = rawL.map (fun q => (q.1, (q.2 : Rat) / ((sumVals rawL : Int) : Rat))))
    ∧ (((dGet (calculate_card_stratagem_cooccurrence Rat exCorpusC6) 1 []).map Prod.snd).sum = 1
      ∧ ∃ rawS, dFind (affinityRaw stratagemLabel exCorpusC6) 1 = some rawS ∧ sumVals rawS ≠ 0
          ∧ dGet (calculate_card_stratagem_cooccurrence Rat exCorpusC6) 1 []
              = rawS.map (fun q => (q.1, (q.2 : Rat) / ((sumVals rawS : Int) : Rat))))
    ∧ 9 ∉ dKeys (calculate_card_leader_cooccurrence Rat exCorpusC6)
    ∧ 9 ∉ dKeys (calculate_card_stratagem_cooccurrence Rat exCorpusC6) :=
  ⟨⟨by decide, by decide, by decide, by decide, by decide, by decide⟩,
   (C6_affinity_probability_distribution (K := Rat) exCorpusC6 1 1 9).1 (by decide),
   (C6_affinity_probability_distribution (K := Rat) exCorpusC6 1 1 9).2.1 (by decide),
   (C6_affinity_probability_distribution (K := Rat) exCorpusC6 1 1 9).2.2.1
     (by decide) (by decide),
   (C6_affinity_probability_distribution (K := Rat) exCorpusC6 1 1 9).2.2.2
     (by decide) (by decide)⟩

/-- Claim C4: on a non-empty occurrence table with every count at least one
(the invariant of tables the aggregator produces) and maximum count M, the
Normalizer succeeds, keeps the key set, maps a card of count n to
log (1 + n) / log (1 + M), every such value lies in [0, 1], and a card whose
count equals the maximum maps to exactly 1. -/
theorem C4_normalizer_log_scaling (occ : List (Nat × Nat)) (x n : Nat)
    (hne : occ ≠ []) (hpos : ∀ p ∈ occ, 1 ≤ p.2)
    (hnd : (dKeys occ).Nodup) (hmem : (x, n) ∈ occ) :
    normalize_card_occurances_E occ = Except.ok (normalize_card_occurances_core occ)
    ∧ dKeys (normalize_card_occurances_core occ) = dKeys occ
    ∧ dFind (normalize_card_occurances_core occ) x
        = some (Real.log (1 + (n : Real)) / Real.log (1 + (topVal occ : Real)))
    ∧ 0 ≤ Real.log (1 + (n : Real)) / Real.log (1 + (topVal occ : Real))
    ∧ Real.log (1 + (n : Real)) / Real.log (1 + (topVal occ : Real)) ≤ 1
    ∧ (n = topVal occ →
        Real.log (1 + (n : Real)) / Real.log (1 + (topVal occ : Real)) = 1) := by
  have hM : 1 ≤ topVal occ := one_le_topVal occ hne hpos
  have hnM : n ≤ topVal occ := le_topVal occ x n hmem
  have hMr : (2 : Real) ≤ 1 + (topVal occ : Real) := by
    have h1 : (1 : Real) ≤ (topVal occ : Real) := by exact_mod_cast hM
    linarith
  have hlogM : 0 < Real.log (1 + (topVal occ : Real)) :=
    Real.log_pos (by linarith)
  have hlogn : 0 ≤ Real.log (1 + (n : Real)) := by
    apply Real.log_nonneg
    have h2 : (0 : Real) ≤ (n : Real) := Nat.cast_nonneg n
    linarith
  have hle : Real.log (1 + (n : Real)) ≤ Real.log (1 + (topVal occ : Real)) := by
    apply Real.log_le_log (by positivity)
    have h3 : (n : Real) ≤ (topVal occ : Real) := by exact_mod_cast hnM
    linarith
  refine ⟨?_, dKeys_normalize occ, ?_, ?_, ?_, ?_⟩
  · unfold normalize_card_occurances_E
    rw [if_neg hne]
  · rw [dFind_normalize, dFind_of_mem_nodup occ x n hmem hnd]
    rfl
  · exact div_nonneg hlogn hlogM.le
  · exact (div_le_one hlogM).mpr hle
  · intro hn
    rw [hn]
    exact div_self hlogM.ne'

/-- The occurrence table of the two-deck scenario of the spec: card 1 three
times, card 2 twice. -/
def exOccC4 : List (Nat × Nat) := [(1, 3), (2, 2)]

theorem C4_witness :
    (exOccC4 ≠ [] ∧ (∀ p ∈ exOccC4, 1 ≤ p.2) ∧ (dKeys exOccC4).Nodup ∧ (1, 3) ∈ exOccC4)
    ∧ (normalize_card_occurances_E exOccC4 = Except.ok (normalize_card_occurances_core exOccC4)
      ∧ dKeys (normalize_card_occurances_core exOccC4) = dKeys exOccC4
      ∧ dFind (normalize_card_occurances_core exOccC4) 1
          = some (Real.log (1 + ((3 : Nat) : Real)) / Real.log (1 + (topVal exOccC4 : Real)))
      ∧ 0 ≤ Real.log (1 + ((3 : Nat) : Real)) / Real.log (1 + (topVal exOccC4 : Real))
      ∧ Real.log (1 + ((3 : Nat) : Real)) / Real.log (1 + (topVal exOccC4 : Real)) ≤ 1
      ∧ ((3 : Nat) = topVal exOccC4 →
          Real.log (1 + ((3 : Nat) : Real)) / Real.log (1 + (topVal exOccC4 : Real)) = 1)) :=
  ⟨⟨by decide, by decide, by decide, by decide⟩,
   C4_normalizer_log_scaling exOccC4 1 3 (by decide) (by decide) (by decide) (by decide)⟩

/-- Claim C9: the fitness method is a total function of the candidate deck
and the stored statistics (the embedding returns a value for every deck); a
candidate card id unknown to all three statistics contributes zero through
its leader affinity, its stratagem affinity and every guarded matrix term in
either pair position, while its per-entry summand still equals its own
within-candidate frequency count; and an unknown leader or stratagem label
contributes zero rather than failing. The last conjunct pins the score as the
sum of the per-entry summands plus the guarded pair summands. -/
theorem C9_unknown_entities_contribute_zero {K : Type u} [LinearOrderedField K]
    (st : FitnessStats K) (deck : Deck) (x y c : Nat) (l s : String)
    (freq : List (Nat × Nat))
    (hL : x ∉ dKeys st.card_leader_cooccurrence)
    (hS : x ∉ dKeys st.card_stratagem_cooccurrence)
    (hI : x ∉ dKeys st.cooccurrence_matrix)
    (hC : x ∉ matColumns st.cooccurrence_matrix)
    (hl : l ∉ dKeys (dGet st.card_leader_cooccurrence c []))
    (hs : s ∉ dKeys (dGet st.card_stratagem_cooccurrence c [])) :
    leaderScore st x deck.leader_ability = 0
    ∧ stratagemScore st x deck.stratagem = 0
    ∧ pairScore st x y = 0
    ∧ pairScore st y x = 0
    ∧ cardTerm st freq deck.leader_ability deck.stratagem x = ((dGet freq x 0 : Nat) : K)
    ∧ leaderScore st c l = 0
    ∧ stratagemScore st c s = 0
    ∧ Fitness.fitness st deck
        = ((deck.cards.map Card.id).map
            (cardTerm st (candFreq deck.cards) deck.leader_ability deck.stratagem)).sum
          + pairPart st (deck.cards.map Card.id) := by
  refine ⟨leaderScore_absent st x _ hL, stratagemScore_absent st x _ hS,
    pairScore_left_absent st x y hI, pairScore_right_absent st y x hC, ?_,
    leaderScore_label_absent st c l hl, stratagemScore_label_absent st c s hs, rfl⟩
  unfold cardTerm
  rw [leaderScore_absent st x _ hL, stratagemScore_absent st x _ hS]
  ring

/-- Concrete statistics over the rationals: card ids 5 and 6 are known, 7 is
unknown everywhere. -/
def exStatsC9 : FitnessStats Rat :=
  FitnessStats.mk [(5, 2), (6, 1)] [(5, 1), (6, 1)]
    [(5, [(6, 1)]), (6, [(5, 1)])]
    [(5, [("L1", 1)]), (6, [("L1", 1)])]
    [(5, [("S1", 1)]), (6, [("S1", 1)])]

/-- A candidate deck holding known card 5 and unknown card 7. -/
def exDeckC9 : Deck :=
  Deck.mk "L1" "S1"
    [Card.mk 5 "a" 5 "bronze" "unit" "nr" "", Card.mk 7 "b" 6 "gold" "unit" "nr" ""] "nr"

theorem C9_witness :
    (7 ∉ dKeys exStatsC9.card_leader_cooccurrence
      ∧ 7 ∉ dKeys exStatsC9.card_stratagem_cooccurrence
      ∧ 7 ∉ dKeys exStatsC9.cooccurrence_matrix
      ∧ 7 ∉ matColumns exStatsC9.cooccurrence_matrix
      ∧ "L9" ∉ dKeys (dGet exStatsC9.card_leader_cooccurrence 5 [])
      ∧ "S9" ∉ dKeys (dGet exStatsC9.card_stratagem_cooccurrence 5 []))
    ∧ (leaderScore exStatsC9 7 exDeckC9.leader_ability = 0
      ∧ stratagemScore exStatsC9 7 exDeckC9.stratagem = 0
      ∧ pairScore exStatsC9 7 6 = 0
      ∧ pairScore exStatsC9 6 7 = 0
      ∧ cardTerm exStatsC9 (candFreq exDeckC9.cards) exDeckC9.leader_ability exDeckC9.stratagem 7
          = ((dGet (candFreq exDeckC9.cards) 7 0 : Nat) : Rat)
      ∧ leaderScore exStatsC9 5 "L9" = 0
      ∧ stratagemScore exStatsC9 5 "S9" = 0
      ∧ Fitness.fitness exStatsC9 exDeckC9
          = ((exDeckC9.cards.map Card.id).map
              (cardTerm exStatsC9 (candFreq exDeckC9.cards)
                exDeckC9.leader_ability exDeckC9.stratagem)).sum
            + pairPart exStatsC9 (exDeckC9.cards.map Card.id)) :=
  ⟨⟨by decide, by decide, by decide, by decide, by decide, by decide⟩,
   C9_unknown_entities_contribute_zero exStatsC9 exDeckC9 7 6 5 "L9" "S9"
     (candFreq exDeckC9.cards)
     (by decide) (by decide) (by decide) (by decide) (by decide) (by decide)⟩

/-- Claim C1 (amended): after accumulation each pair cell is divided by the
maximum of the two cards entries of the card_frequency dict the builder
receives, with fallback 1 for a card missing from that dict; the argument
expression written in the constructor for that dict is the log-normalized
occurrence table, not the raw occurrence table, so the denominator is a
maximum of normalized values rather than of raw counts. -/
theorem C1_amended_denominator_from_passed_dict {K : Type u} [LinearOrderedField K]
    (card_frequency : List (Nat × K)) (corpus : List DeckData) (a b n : Nat)
    (h : lookup2 (cooccAccum corpus) a b = some n) :
    matrixEntry (calculate_card_cooccurrence_matrix_core card_frequency corpus) a b
      = (n : K) / max (dGet card_frequency a 1) (dGet card_frequency b 1) := by
  unfold matrixEntry calculate_card_cooccurrence_matrix_core
  rw [dGet2_eq_lookup2, lookup2_divideStep, h]
  rfl

theorem C1_amended_witness :
    lookup2 (cooccAccum exCorpusC5) 1 2 = some 2
    ∧ matrixEntry (calculate_card_cooccurrence_matrix_core
          [(1, (4 : Rat)), (2, 2)] exCorpusC5) 1 2
        = ((2 : Nat) : Rat)
          / max (dGet [(1, (4 : Rat)), (2, 2)] 1 1) (dGet [(1, (4 : Rat)), (2, 2)] 2 1) :=
  ⟨by decide,
   C1_amended_denominator_from_passed_dict [(1, (4 : Rat)), (2, 2)] exCorpusC5 1 2 2 (by decide)⟩

/-- A corpus in which cards 1 and 2 share one deck and card 1 fills three
more decks, so raw counts are 4 and 1 while both normalized values make the
maximum denominator 1. -/
def exCorpusC1 : List DeckData :=
  [DeckData.mk (some "L") (some "S") [CardEntry.mk 1 none, CardEntry.mk 2 none],
   DeckData.mk (some "L") (some "S") [CardEntry.mk 1 none],
   DeckData.mk (some "L") (some "S") [CardEntry.mk 1 none],
   DeckData.mk (some "L") (some "S") [CardEntry.mk 1 none]]

/-- Modelled from the spec: the co-occurrence matrix claim C1 describes, in
which the max-denominator ranges over the raw (integer) occurrence counts
with fallback 1. -/
noncomputable def specRawDenomMatrix (corpus : List DeckData) :
    List (Nat × List (Nat × Real)) :=
  calculate_card_cooccurrence_matrix_core
    ((calculate_card_ocurance corpus).map (fun p => (p.1, ((p.2 : Nat) : Real)))) corpus

/-- The matrix produced when the builder receives the dict named in the
constructor argument expression: the log-normalized occurrence table. -/
noncomputable def wiredNormDenomMatrix (corpus : List DeckData) :
    List (Nat × List (Nat × Real)) :=
  calculate_card_cooccurrence_matrix_core
    (normalize_card_occurances_core (calculate_card_ocurance corpus)) corpus

/-- Claim C1 counterexample: on exCorpusC1 the pair (1, 2) accumulates one
hit; dividing by the maximum of the normalized values (both at most 1, card 1
at exactly 1) yields 1, while dividing by the maximum of the raw counts 4 and
1 — the denominator the claim states — yields one quarter. The two matrices
differ, so the denominator used is not the raw-count maximum. -/
theorem C1_counterexample :
    matrixEntry (wiredNormDenomMatrix exCorpusC1) 1 2 = 1
    ∧ matrixEntry (specRawDenomMatrix exCorpusC1) 1 2 = 1 / 4
    ∧ matrixEntry (wiredNormDenomMatrix exCorpusC1) 1 2
        ≠ matrixEntry (specRawDenomMatrix exCorpusC1) 1 2 := by
  have hocc : calculate_card_ocurance exCorpusC1 = [(1, 4), (2, 1)] := by decide
  have hacc : lookup2 (cooccAccum exCorpusC1) 1 2 = some 1 := by decide
  have htop : topVal [(1, 4), (2, 1)] = 4 := by decide
  have hn1 : dGet (normalize_card_occurances_core (calculate_card_ocurance exCorpusC1)) 1 1
      = Real.log 5 / Real.log 5 := by
    unfold dGet
    rw [dFind_normalize, hocc, htop]
    have h4 : dFind [(1, 4), (2, 1)] 1 = some 4 := by decide
    rw [h4]
    simp only [Option.map_some', Option.getD_some]
    norm_num
  have hn2 : dGet (normalize_card_occurances_core (calculate_card_ocurance exCorpusC1)) 2 1
      = Real.log 2 / Real.log 5 := by
    unfold dGet
    rw [dFind_normalize, hocc, htop]
    have h1 : dFind [(1, 4), (2, 1)] 2 = some 1 := by decide
    rw [h1]
    simp only [Option.map_some', Option.getD_some]
    norm_num
  have hlog5pos : 0 < Real.log 5 := Real.log_pos (by norm_num)
  have hmax1 : max (Real.log 5 / Real.log 5) (Real.log 2 / Real.log 5) = 1 := by
    have h55 : Real.log 5 / Real.log 5 = 1 := div_self hlog5pos.ne'
    have h25 : Real.log 2 / Real.log 5 ≤ 1 := by
      rw [div_le_one hlog5pos]
      exact Real.log_le_log (by norm_num) (by norm_num)
    rw [h55]
    exact max_eq_left (h55 ▸ h25)
  have hw : matrixEntry (wiredNormDenomMatrix exCorpusC1) 1 2 = 1 := by
    unfold wiredNormDenomMatrix calculate_card_cooccurrence_matrix_core matrixEntry
    rw [dGet2_eq_lookup2, lookup2_divideStep, hacc]
    simp only [Option.map_some', Option.getD_some]
    rw [hn1, hn2, hmax1]
    norm_num
  have hr : matrixEntry (specRawDenomMatrix exCorpusC1) 1 2 = 1 / 4 := by
    unfold specRawDenomMatrix calculate_card_cooccurrence_matrix_core matrixEntry
    rw [dGet2_eq_lookup2, lookup2_divideStep, hacc]
    simp only [Option.map_some', Option.getD_some]
    have hf1 : dGet ((calculate_card_ocurance exCorpusC1).map
        (fun p => (p.1, ((p.2 : Nat) : Real)))) 1 1 = 4 := by
      unfold dGet
      rw [hocc]
      norm_num [dFind]
    have hf2 : dGet ((calculate_card_ocurance exCorpusC1).map
        (fun p => (p.1, ((p.2 : Nat) : Real)))) 2 1 = 1 := by
      unfold dGet
      rw [hocc]
      norm_num [dFind]
    rw [hf1, hf2]
    norm_num
  refine ⟨hw, hr, ?_⟩
  rw [hw, hr]
  norm_num
